import Mathlib

/-
Verification of the rigid-diagram engine of the discopy repository
(src/discopy/rigid.py): graded objects with winding numbers, types,
layered diagrams, cup/cap generation, transpose, curry, snake removal
and functor application on winded objects.

The monoidal substrate (sequential and parallel composition of layered
diagrams, the normal-form driver and the snake-removal rewriting) lives
in modules of the repository that are not part of the sample
(discopy/monoidal.py, discopy/rewriting.py); those definitions are
modelled from the specification and marked as such in their doc
comments.  Everything else is translated directly from
src/discopy/rigid.py.
-/

set_option maxRecDepth 10000

namespace Rigid

/-- A rigid object: a name together with an integer winding number
(src/discopy/rigid.py, class `Ob`, lines 50-114). -/
structure Ob where
  name : String
  z : Int
deriving DecidableEq, Repr

/-- The left adjoint of an object (rigid.py lines 76-79): winding decreases. -/
def Ob.l (o : Ob) : Ob := ⟨o.name, o.z - 1⟩

/-- The right adjoint of an object (rigid.py lines 81-84): winding increases. -/
def Ob.r (o : Ob) : Ob := ⟨o.name, o.z + 1⟩

/-- A rigid type is a finite sequence of rigid objects
(rigid.py class `Ty`, lines 117-158). -/
abbrev Ty := List Ob

/-- Left adjoint of a type (rigid.py line 133-136): reverse and map `Ob.l`. -/
def Ty.l (t : Ty) : Ty := t.reverse.map Ob.l

/-- Right adjoint of a type (rigid.py line 138-141): reverse and map `Ob.r`. -/
def Ty.r (t : Ty) : Ty := t.reverse.map Ob.r

/-- Rigid boxes: a named generator with a winding number (rigid.py class
`Box`, lines 401-450), a cup (class `Cup`, lines 468-521) or a cap
(class `Cap`, lines 524-577).  Cups and caps store the two half-types
passed to their constructor; the construction-time validity checks of
`Cup.__init__` / `Cap.__init__` are modelled separately by `mkCup` and
`mkCap` below. -/
inductive Box where
  | gen (name : String) (dom cod : Ty) (z : Int)
  | cup (left right : Ty)
  | cap (left right : Ty)
deriving DecidableEq, Repr

/-- Domain of a box: a generator stores its own, a cup consumes its two
half-types (`left @ right`), a cap consumes nothing. -/
def Box.dom : Box → Ty
  | .gen _ d _ _ => d
  | .cup l r => l ++ r
  | .cap _ _ => []

/-- Codomain of a box: dual to `Box.dom`. -/
def Box.cod : Box → Ty
  | .gen _ _ c _ => c
  | .cup _ _ => []
  | .cap l r => l ++ r

/-- Left adjoint of a box.  A generator keeps its name, adjoints its
types and decrements the winding (rigid.py lines 436-440); `Cup.l`
returns `Cup(right.l, left.l)` (lines 502-504) and `Cap.l` returns
`Cap(right.l, left.l)` (lines 558-560). -/
def Box.l : Box → Box
  | .gen n d c z => .gen n (Ty.l d) (Ty.l c) (z - 1)
  | .cup l r => .cup (Ty.l r) (Ty.l l)
  | .cap l r => .cap (Ty.l r) (Ty.l l)

/-- Right adjoint of a box (rigid.py lines 442-446, 506-508, 562-564). -/
def Box.r : Box → Box
  | .gen n d c z => .gen n (Ty.r d) (Ty.r c) (z + 1)
  | .cup l r => .cup (Ty.r r) (Ty.r l)
  | .cap l r => .cap (Ty.r r) (Ty.r l)

/-- A layer of a diagram: a box with identity wires on each side
(rigid.py class `Layer`, lines 179-196). -/
structure Layer where
  left : Ty
  box : Box
  right : Ty
deriving DecidableEq, Repr

/-- Left transpose of a layer (rigid.py lines 188-191): swap the sides
and adjoint everything. -/
def Layer.l (ly : Layer) : Layer := ⟨Ty.l ly.right, ly.box.l, Ty.l ly.left⟩

/-- Right transpose of a layer (rigid.py lines 193-196). -/
def Layer.r (ly : Layer) : Layer := ⟨Ty.r ly.right, ly.box.r, Ty.r ly.left⟩

/-- A rigid diagram: a sequence of layers with a fixed domain and
codomain (rigid.py class `Diagram`; data model from spec section 3). -/
structure Diagram where
  inside : List Layer
  dom : Ty
  cod : Ty
deriving DecidableEq, Repr

/-- The identity diagram on a type: no layers (rigid.py class `Id`,
lines 382-398). -/
def idD (t : Ty) : Diagram := ⟨[], t, t⟩

/-- Modelled from the spec: sequential composition `f >> g` of the
monoidal base layer (discopy/monoidal.py, absent from the sample; spec
section 4.2): the layer lists are concatenated.  It is defined when
`f.cod = g.dom`; every use below satisfies this. -/
def Diagram.comp (f g : Diagram) : Diagram := ⟨f.inside ++ g.inside, f.dom, g.cod⟩

/-- Modelled from the spec: parallel composition (tensor) `f @ g` of the
monoidal base layer (discopy/monoidal.py, absent from the sample; spec
section 4.2): every layer of `f` is widened by `g`'s domain on the
right, every layer of `g` by `f`'s codomain on the left. -/
def Diagram.tensor (f g : Diagram) : Diagram :=
  ⟨f.inside.map (fun ly => ⟨ly.left, ly.box, ly.right ++ g.dom⟩) ++
    g.inside.map (fun ly => ⟨f.cod ++ ly.left, ly.box, ly.right⟩),
   f.dom ++ g.dom, f.cod ++ g.cod⟩

/-- The one-layer diagram of a box (monoidal boxes are diagrams). -/
def boxD (b : Box) : Diagram := ⟨[⟨[], b, []⟩], b.dom, b.cod⟩

/-- Left conjugate of a diagram (rigid.py `Diagram._conjugate` /
`Diagram.l`, lines 300-310): per-layer left transpose, adjoint dom/cod. -/
def Diagram.l (d : Diagram) : Diagram :=
  ⟨d.inside.map Layer.l, Ty.l d.dom, Ty.l d.cod⟩

/-- Right conjugate of a diagram (rigid.py lines 312-314). -/
def Diagram.r (d : Diagram) : Diagram :=
  ⟨d.inside.map Layer.r, Ty.r d.dom, Ty.r d.cod⟩

/-- The last object of a type as a length-one type (Python `y[-1]` on a
rigid `Ty`); the empty type yields the empty type (Python would raise). -/
def lastTy (y : Ty) : Ty := y.drop (y.length - 1)

/-- The nested cup/cap generator (rigid.py `nesting`, lines 652-669):
base cases for length 0 and 1, and for longer types the atomic
generator on `(x[0], y[-1])` around the recursion on `(x[1:], y[:-1])`;
a cup-like factory (nonempty domain) is composed after the interior,
a cap-like factory before it. -/
def nesting (factory : Ty → Ty → Box) : Ty → Ty → Diagram
  | [], _ => idD []
  | [a], y => boxD (factory [a] y)
  | a :: b :: rest, y =>
    let head := factory [a] (lastTy y)
    let inner :=
      ((idD [a]).tensor (nesting factory (b :: rest) y.dropLast)).tensor (idD (lastTy y))
    match Box.dom head with
    | [] => (boxD head).comp inner
    | _ :: _ => inner.comp (boxD head)

/-- Nested cups (rigid.py `Diagram.cups`, lines 230-246). -/
def cups (left right : Ty) : Diagram := nesting Box.cup left right

/-- Nested caps (rigid.py `Diagram.caps`, lines 248-257). -/
def caps (left right : Ty) : Diagram := nesting Box.cap left right

/-- The error conditions of the Python code, by kind:
`axiomError` for `cat.AxiomError`, `valueError` for `ValueError` raised
by length checks, `typeError` for `TypeError`, `indexError` for the
`ValueError('Indices ... are out of range.')` of `Diagram.cup` (the
spec's IndexOutOfRange kind), and `nameError` for the `NameError` the
undefined name `Swap` in `Diagram.cup` would raise. -/
inductive PyError where
  | axiomError
  | valueError
  | typeError
  | indexError
  | nameError
deriving DecidableEq, Repr

/-- The checked constructor of an atomic cup (rigid.py `Cup.__init__`,
lines 488-499): both halves must have length one (else `ValueError`),
and they must be mutual adjoints in at least one direction
(`left.r == right or left == right.r`, else `AxiomError`). -/
def mkCup (left right : Ty) : Except PyError Box :=
  if left.length ≠ 1 ∨ right.length ≠ 1 then .error .valueError
  else if Ty.r left ≠ right ∧ left ≠ Ty.r right then .error .axiomError
  else .ok (.cup left right)

/-- The checked constructor of an atomic cap (rigid.py `Cap.__init__`,
lines 544-555): same checks as `mkCup` (`left != right.r and
left.r != right` raises `AxiomError`). -/
def mkCap (left right : Ty) : Except PyError Box :=
  if left.length ≠ 1 ∨ right.length ≠ 1 then .error .valueError
  else if left ≠ Ty.r right ∧ Ty.r left ≠ right then .error .axiomError
  else .ok (.cap left right)

/-- Dagger of a rigid box: every branch raises `AxiomError`
(rigid.py `Box.dagger` lines 448-450, `Cup.dagger` lines 510-518,
`Cap.dagger` lines 566-574). -/
def Box.dagger : Box → Except PyError Box
  | .gen _ _ _ _ => .error .axiomError
  | .cup _ _ => .error .axiomError
  | .cap _ _ => .error .axiomError

/-- The transpose of a diagram (rigid.py `Diagram.transpose`, lines
331-358), wrapping the diagram in caps and cups. -/
def Diagram.transpose (d : Diagram) (left : Bool) : Diagram :=
  if left then
    (((idD (Ty.l d.cod)).tensor (caps d.dom (Ty.l d.dom))).comp
      (((idD (Ty.l d.cod)).tensor d).tensor (idD (Ty.l d.dom)))).comp
      ((cups (Ty.l d.cod) d.cod).tensor (idD (Ty.l d.dom)))
  else
    (((caps (Ty.r d.dom) d.dom).tensor (idD (Ty.r d.cod))).comp
      (((idD (Ty.r d.dom)).tensor d).tensor (idD (Ty.r d.cod)))).comp
      ((idD (Ty.r d.dom)).tensor (cups d.cod (Ty.r d.cod)))

/-- Diagram currying (rigid.py `Diagram.curry`, lines 291-298): with
`left = true` the first `n` wires of the domain are kept and the rest
is bent into the codomain by a cap; with `left = false` the last `n`
wires are kept. -/
def Diagram.curry (d : Diagram) (n : Nat) (left : Bool) : Diagram :=
  if left then
    let base := d.dom.take n
    let exponent := d.dom.drop n
    ((idD base).tensor (caps exponent (Ty.l exponent))).comp
      (d.tensor (idD (Ty.l exponent)))
  else
    let offset := d.dom.length - n
    let base := d.dom.drop offset
    let exponent := d.dom.take offset
    ((caps (Ty.r exponent) exponent).tensor (idD base)).comp
      ((idD (Ty.r exponent)).tensor d)

theorem Ob_l_r (o : Ob) : o.l.r = o := by
  cases o with
  | mk n z => simp [Ob.l, Ob.r]

theorem Ob_r_l (o : Ob) : o.r.l = o := by
  cases o with
  | mk n z => simp [Ob.l, Ob.r]

theorem Ty_l_r (t : Ty) : Ty.r (Ty.l t) = t := by
  simp [Ty.l, Ty.r, List.map_reverse, List.map_map]
  have h : Ob.r ∘ Ob.l = id := funext fun o => Ob_l_r o
  simp [h]

theorem Ty_r_l (t : Ty) : Ty.l (Ty.r t) = t := by
  simp [Ty.l, Ty.r, List.map_reverse, List.map_map]
  have h : Ob.l ∘ Ob.r = id := funext fun o => Ob_r_l o
  simp [h]

theorem Box_l_r (b : Box) : b.l.r = b := by
  cases b <;> simp [Box.l, Box.r, Ty_l_r]

theorem Box_r_l (b : Box) : b.r.l = b := by
  cases b <;> simp [Box.l, Box.r, Ty_r_l]

theorem Layer_l_r (ly : Layer) : ly.l.r = ly := by
  cases ly with
  | mk left box right => simp [Layer.l, Layer.r, Ty_l_r, Box_l_r]

theorem Layer_r_l (ly : Layer) : ly.r.l = ly := by
  cases ly with
  | mk left box right => simp [Layer.l, Layer.r, Ty_r_l, Box_r_l]

/-- C3: adjoint involution.  For every object, type, box and diagram
`x`, taking the left adjoint then the right adjoint returns `x`, and
symmetrically: `x.l.r == x == x.r.l`. -/
theorem adjoint_involution :
    (∀ o : Ob, o.l.r = o ∧ o.r.l = o) ∧
    (∀ t : Ty, Ty.r (Ty.l t) = t ∧ Ty.l (Ty.r t) = t) ∧
    (∀ b : Box, b.l.r = b ∧ b.r.l = b) ∧
    (∀ d : Diagram, d.l.r = d ∧ d.r.l = d) := by
  refine ⟨fun o => ⟨Ob_l_r o, Ob_r_l o⟩,
    fun t => ⟨Ty_l_r t, Ty_r_l t⟩,
    fun b => ⟨Box_l_r b, Box_r_l b⟩,
    fun d => ⟨?_, ?_⟩⟩
  · cases d with
    | mk inside dom cod =>
      simp [Diagram.l, Diagram.r, Ty_l_r, Ty_r_l, List.map_map]
      have h : Layer.r ∘ Layer.l = id := funext fun ly => Layer_l_r ly
      simp [h]
  · cases d with
    | mk inside dom cod =>
      simp [Diagram.l, Diagram.r, Ty_l_r, Ty_r_l, List.map_map]
      have h : Layer.l ∘ Layer.r = id := funext fun ly => Layer_r_l ly
      simp [h]

/-- C2: the nested cup/cap generator.  For atomic `a`, `cups(A, A.r)`
is the single atomic cup; for a length-two type `A @ B`,
`cups(A @ B, (A @ B).r) = Id(A) @ Cup(B, B.r) @ Id(A.r) >> Cup(A, A.r)`
(interior before the outer generator), while for caps the outer
generator comes first:
`caps(A @ B, (A @ B).l) = Cap(A, A.l) >> Id(A) @ Cap(B, B.l) @ Id(A.l)`. -/
theorem nested_cups_caps_structure :
    (∀ a : Ob, cups [a] (Ty.r [a]) = boxD (.cup [a] [a.r])) ∧
    (∀ a : Ob, caps [a] (Ty.l [a]) = boxD (.cap [a] [a.l])) ∧
    (∀ a b : Ob, cups [a, b] (Ty.r [a, b]) =
      ((((idD [a]).tensor (boxD (.cup [b] [b.r]))).tensor (idD [a.r])).comp
        (boxD (.cup [a] [a.r])))) ∧
    (∀ a b : Ob, caps [a, b] (Ty.l [a, b]) =
      ((boxD (.cap [a] [a.l])).comp
        (((idD [a]).tensor (boxD (.cap [b] [b.l]))).tensor (idD [a.l])))) := by
  refine ⟨fun a => rfl, fun a => rfl, fun a b => rfl, fun a b => rfl⟩

/-- C4: constructing a cup or cap from two length-one types succeeds
exactly when the two halves are mutual adjoints in at least one
direction (`left.r == right` or `left == right.r`), and otherwise
raises an axiom error; in particular `Cup(Ty('a'), Ty('b'))` raises
`AxiomError`. -/
theorem cup_cap_construction_validity :
    (∀ a b : Ob,
      mkCup [a] [b] =
        if Ty.r [a] = [b] ∨ [a] = Ty.r [b] then .ok (.cup [a] [b])
        else .error .axiomError) ∧
    (∀ a b : Ob,
      mkCap [a] [b] =
        if Ty.r [a] = [b] ∨ [a] = Ty.r [b] then .ok (.cap [a] [b])
        else .error .axiomError) ∧
    mkCup [⟨"a", 0⟩] [⟨"b", 0⟩] = .error .axiomError := by
  refine ⟨fun a b => ?_, fun a b => ?_, by rfl⟩
  · have hlen : ¬(([a] : Ty).length ≠ 1 ∨ ([b] : Ty).length ≠ 1) := by simp
    rw [mkCup, if_neg hlen]
    by_cases h : Ty.r [a] = [b] ∨ [a] = Ty.r [b]
    · rw [if_pos h,
        if_neg (fun hc => h.elim (fun hp => hc.1 hp) (fun hq => hc.2 hq))]
    · rw [if_neg h, if_pos (not_or.mp h)]
  · have hlen : ¬(([a] : Ty).length ≠ 1 ∨ ([b] : Ty).length ≠ 1) := by simp
    rw [mkCap, if_neg hlen]
    by_cases h : Ty.r [a] = [b] ∨ [a] = Ty.r [b]
    · rw [if_pos h,
        if_neg (fun hc => h.elim (fun hp => hc.2 hp) (fun hq => hc.1 hq))]
    · rw [if_neg h, if_pos ⟨(not_or.mp h).2, (not_or.mp h).1⟩]

/-- C10: calling `dagger()` on any rigid box - generator, cup or cap -
raises `AxiomError`; no rigid generator has a dagger. -/
theorem dagger_always_axiom_error :
    ∀ b : Box, Box.dagger b = .error .axiomError := by
  intro b
  cases b <;> rfl

/-- Modelled from the spec: the data of a removable snake found by the
normalizer (spec section 4.4; the snake-removal rewriting lives in
discopy/rewriting.py, absent from the sample): the layer index of the
cap and of the cup, the indices of the obstructing layers on the left
and on the right of the followed wire, and whether the snake bends to
the left. -/
structure SnakeData where
  capIdx : Nat
  cupIdx : Nat
  obstL : List Nat
  obstR : List Nat
  leftSnake : Bool
deriving DecidableEq, Repr

/-- Modelled from the spec: follow the output wire of a cap down
through the subsequent layers (spec section 4.4, "immediately followed
modulo intervening identity wires only").  `k` is the current layer
index, `j` the current wire offset; layers whose box lies strictly to
the left of the wire shift the offset and are recorded as left
obstructions, layers to the right as right obstructions.  Returns the
index of the layer whose box consumes the wire (or the layer count if
the wire reaches the boundary), the final offset and the obstruction
lists. -/
def followAux (ls : List Layer) :
    Nat → Nat → Nat → List Nat → List Nat → Nat × Nat × List Nat × List Nat
  | 0, _, j, oL, oR => (ls.length, j, oL, oR)
  | fuel + 1, k, j, oL, oR =>
    match ls[k]? with
    | none => (ls.length, j, oL, oR)
    | some ly =>
      let off := ly.left.length
      let dl := ly.box.dom.length
      if off ≤ j ∧ j < off + dl then (k, j, oL, oR)
      else if off ≤ j then
        followAux ls fuel (k + 1) (j - dl + ly.box.cod.length) (oL ++ [k]) oR
      else followAux ls fuel (k + 1) j oL (oR ++ [k])

/-- Modelled from the spec: try one snake candidate: follow the wire at
offset `w` leaving the cap at layer `c`; the candidate is yankable when
the wire enters a cup, on its right input for a left snake and on its
left input for a right snake. -/
def tryCand (ls : List Layer) (c w : Nat) (leftSnake : Bool) : Option SnakeData :=
  match followAux ls ls.length (c + 1) w [] [] with
  | (k, wire, oL, oR) =>
    match ls[k]? with
    | none => none
    | some ly2 =>
      match ly2.box with
      | .cup _ _ =>
        if (if leftSnake then ly2.left.length + 1 = wire else ly2.left.length = wire)
        then some ⟨c, k, oL, oR, leftSnake⟩ else none
      | _ => none

/-- Modelled from the spec: inspect the layer at index `c`; when its
box is a cap, try the left-snake candidate (following the cap's left
output) and then the right-snake candidate (its right output). -/
def checkCap (ls : List Layer) (c : Nat) : Option SnakeData :=
  match ls[c]? with
  | none => none
  | some ly =>
    match ly.box with
    | .cap _ _ =>
      match tryCand ls c ly.left.length true with
      | some s => some s
      | none => tryCand ls c (ly.left.length + 1) false
    | _ => none

/-- Modelled from the spec: scan the layers top to bottom for the first
removable snake (spec section 4.4, "scanning proceeds left-to-right,
outermost-first"). -/
def findSnake (d : Diagram) : Option SnakeData :=
  (List.range d.inside.length).findSome? (checkCap d.inside)

/-- Modelled from the spec: swap two consecutive independent layers
(the interchange of the monoidal base layer, used by the normalizer to
bring a cap and a cup next to each other before deleting them).  The
second box must lie entirely to the right of the first box's codomain,
or entirely to the left of its domain; otherwise the layers share a
wire and cannot be swapped. -/
def swapLayers (a b : Layer) : Option (Layer × Layer) :=
  let o1 := a.left.length
  let d1 := a.box.dom.length
  let c1 := a.box.cod.length
  let o2 := b.left.length
  let d2 := b.box.dom.length
  let t := a.left ++ a.box.dom ++ a.right
  if o1 + c1 ≤ o2 then
    let o2n := o2 - c1 + d1
    let u := t.take o2n ++ b.box.cod ++ t.drop (o2n + d2)
    some (⟨t.take o2n, b.box, t.drop (o2n + d2)⟩,
      ⟨u.take o1, a.box, u.drop (o1 + d1)⟩)
  else if o2 + d2 ≤ o1 then
    let u := t.take o2 ++ b.box.cod ++ t.drop (o2 + d2)
    let o1n := o1 - d2 + b.box.cod.length
    some (⟨t.take o2, b.box, t.drop (o2 + d2)⟩,
      ⟨u.take o1n, a.box, u.drop (o1n + d1)⟩)
  else none

/-- Modelled from the spec: swap the layers at positions `n` and `n+1`
of a layer list. -/
def swapAt : List Layer → Nat → Option (List Layer)
  | a :: b :: rest, 0 => (swapLayers a b).map (fun p => p.1 :: p.2 :: rest)
  | a :: rest, n + 1 => (swapAt rest n).map (fun r => a :: r)
  | _, _ => none

/-- Modelled from the spec: move the layer at index `pos` up by `k`
adjacent swaps. -/
def liftUp : List Layer → Nat → Nat → Option (List Layer)
  | ls, _, 0 => some ls
  | ls, pos, k + 1 =>
    if pos = 0 then none
    else
      match swapAt ls (pos - 1) with
      | none => none
      | some ls2 => liftUp ls2 (pos - 1) k

/-- Modelled from the spec: move the layer at index `pos` down by `k`
adjacent swaps. -/
def pushDown : List Layer → Nat → Nat → Option (List Layer)
  | ls, _, 0 => some ls
  | ls, pos, k + 1 =>
    match swapAt ls pos with
    | none => none
    | some ls2 => pushDown ls2 (pos + 1) k

/-- Modelled from the spec: for a left snake, move each left
obstruction up above the cap (the cap index grows by one each time, and
right obstructions above the moved layer shift down). -/
def moveObsUp : List Layer → List Nat → Nat → List Nat →
    Option (List Layer × Nat × List Nat)
  | ls, [], c, oR => some (ls, c, oR)
  | ls, b :: rest, c, oR =>
    match liftUp ls b (b - c) with
    | none => none
    | some ls2 =>
      moveObsUp ls2 rest (c + 1) (oR.map (fun x => if x < b then x + 1 else x))

/-- Modelled from the spec: for a left snake, move each right
obstruction (bottom-most first) down below the cup (the cup index
shrinks by one each time). -/
def moveObsDown : List Layer → List Nat → Nat → Option (List Layer × Nat)
  | ls, [], c => some (ls, c)
  | ls, b :: rest, c =>
    match pushDown ls b (c - b) with
    | none => none
    | some ls2 => moveObsDown ls2 rest (c - 1)

/-- Modelled from the spec: for a right snake, move each left
obstruction (bottom-most first) down below the cup, shifting the
recorded right obstructions that lay below the moved layer. -/
def moveObsDownAdj : List Layer → List Nat → Nat → List Nat →
    Option (List Layer × Nat × List Nat)
  | ls, [], c, oR => some (ls, c, oR)
  | ls, b :: rest, c, oR =>
    match pushDown ls b (c - b) with
    | none => none
    | some ls2 =>
      moveObsDownAdj ls2 rest (c - 1) (oR.map (fun x => if b < x then x - 1 else x))

/-- Modelled from the spec: for a right snake, move each right
obstruction up above the cap. -/
def moveObsUp2 : List Layer → List Nat → Nat → Option (List Layer × Nat)
  | ls, [], c => some (ls, c)
  | ls, b :: rest, c =>
    match liftUp ls b (b - c) with
    | none => none
    | some ls2 => moveObsUp2 ls2 rest (c + 1)

/-- Modelled from the spec: delete the (now adjacent) cap layer at
index `c` and cup layer at index `k = c + 1` (spec section 4.4, "both
layers are deleted and the surrounding identity wires are merged"). -/
def deleteAdjacent (ls : List Layer) (c k : Nat) (dom cod : Ty) : Option Diagram :=
  if k = c + 1 ∧ k + 1 ≤ ls.length then
    some ⟨ls.take c ++ ls.drop (k + 1), dom, cod⟩
  else none

/-- Modelled from the spec: remove one snake: the obstructions between
the cap and the cup are interchanged out of the way, after which the
two layers are adjacent and are deleted. -/
def unsnake (d : Diagram) (s : SnakeData) : Option Diagram :=
  if s.leftSnake then
    (moveObsUp d.inside s.obstL s.capIdx s.obstR).bind fun t1 =>
      (moveObsDown t1.1 t1.2.2.reverse s.cupIdx).bind fun t2 =>
        deleteAdjacent t2.1 t1.2.1 t2.2 d.dom d.cod
  else
    (moveObsDownAdj d.inside s.obstL.reverse s.cupIdx s.obstR).bind fun t1 =>
      (moveObsUp2 t1.1 t1.2.2 s.capIdx).bind fun t2 =>
        deleteAdjacent t2.1 t2.2 t1.2.1 d.dom d.cod

/-- Modelled from the spec: one step of the normalizer: find a snake
and remove it; `none` when no further removal is possible. -/
def nfStep (d : Diagram) : Option Diagram :=
  match findSnake d with
  | none => none
  | some s => unsnake d s

/-- Modelled from the spec: iterate snake removal (spec section 4.4,
"iterating to a fixed point"); the fuel bounds the number of
removals, each of which deletes two layers. -/
def nfLoop : Nat → Diagram → Diagram
  | 0, d => d
  | fuel + 1, d =>
    match nfStep d with
    | none => d
    | some d2 => nfLoop fuel d2

/-- The normal form of a rigid diagram (rigid.py `Diagram.normal_form`,
lines 360-368, with `Diagram.normalize = rewriting.snake_removal`;
the snake-removal loop is modelled from spec section 4.4). -/
def normal_form (d : Diagram) : Diagram := nfLoop d.inside.length d

theorem swapAt_length (ls : List Layer) (n : Nat) {ls2 : List Layer}
    (h : swapAt ls n = some ls2) : ls2.length = ls.length := by
  induction ls generalizing n ls2 with
  | nil => simp [swapAt] at h
  | cons a rest ih =>
    cases n with
    | zero =>
      cases rest with
      | nil => simp [swapAt] at h
      | cons b rest2 =>
        rw [swapAt] at h
        rcases Option.map_eq_some'.mp h with ⟨p, _, hpe⟩
        rw [← hpe]
        simp
    | succ m =>
      rw [swapAt] at h
      rcases Option.map_eq_some'.mp h with ⟨r, hr, hre⟩
      rw [← hre]
      simp [ih _ hr]

theorem liftUp_length (k : Nat) : ∀ (ls : List Layer) (pos : Nat)
    {ls2 : List Layer}, liftUp ls pos k = some ls2 → ls2.length = ls.length := by
  induction k with
  | zero =>
    intro ls pos ls2 h
    simp [liftUp] at h
    rw [h]
  | succ m ih =>
    intro ls pos ls2 h
    rw [liftUp] at h
    by_cases hp : pos = 0
    · simp [hp] at h
    · rw [if_neg hp] at h
      cases hs : swapAt ls (pos - 1) with
      | none => rw [hs] at h; exact absurd h (by simp)
      | some lsm =>
        rw [hs] at h
        rw [ih lsm (pos - 1) h, swapAt_length ls (pos - 1) hs]

theorem pushDown_length (k : Nat) : ∀ (ls : List Layer) (pos : Nat)
    {ls2 : List Layer}, pushDown ls pos k = some ls2 → ls2.length = ls.length := by
  induction k with
  | zero =>
    intro ls pos ls2 h
    simp [pushDown] at h
    rw [h]
  | succ m ih =>
    intro ls pos ls2 h
    rw [pushDown] at h
    cases hs : swapAt ls pos with
    | none => rw [hs] at h; exact absurd h (by simp)
    | some lsm =>
      rw [hs] at h
      rw [ih lsm (pos + 1) h, swapAt_length ls pos hs]

theorem moveObsUp_length (bs : List Nat) : ∀ (ls : List Layer) (c : Nat)
    (oR : List Nat) {ls2 : List Layer} {c2 : Nat} {oR2 : List Nat},
    moveObsUp ls bs c oR = some (ls2, c2, oR2) → ls2.length = ls.length := by
  induction bs with
  | nil =>
    intro ls c oR ls2 c2 oR2 h
    simp [moveObsUp] at h
    rw [h.1]
  | cons b rest ih =>
    intro ls c oR ls2 c2 oR2 h
    rw [moveObsUp] at h
    cases hs : liftUp ls b (b - c) with
    | none => rw [hs] at h; exact absurd h (by simp)
    | some lsm =>
      rw [hs] at h
      rw [ih lsm _ _ h, liftUp_length _ ls b hs]

theorem moveObsDown_length (bs : List Nat) : ∀ (ls : List Layer) (c : Nat)
    {ls2 : List Layer} {c2 : Nat},
    moveObsDown ls bs c = some (ls2, c2) → ls2.length = ls.length := by
  induction bs with
  | nil =>
    intro ls c ls2 c2 h
    simp [moveObsDown] at h
    rw [h.1]
  | cons b rest ih =>
    intro ls c ls2 c2 h
    rw [moveObsDown] at h
    cases hs : pushDown ls b (c - b) with
    | none => rw [hs] at h; exact absurd h (by simp)
    | some lsm =>
      rw [hs] at h
      rw [ih lsm _ h, pushDown_length _ ls b hs]

theorem moveObsDownAdj_length (bs : List Nat) : ∀ (ls : List Layer) (c : Nat)
    (oR : List Nat) {ls2 : List Layer} {c2 : Nat} {oR2 : List Nat},
    moveObsDownAdj ls bs c oR = some (ls2, c2, oR2) → ls2.length = ls.length := by
  induction bs with
  | nil =>
    intro ls c oR ls2 c2 oR2 h
    simp [moveObsDownAdj] at h
    rw [h.1]
  | cons b rest ih =>
    intro ls c oR ls2 c2 oR2 h
    rw [moveObsDownAdj] at h
    cases hs : pushDown ls b (c - b) with
    | none => rw [hs] at h; exact absurd h (by simp)
    | some lsm =>
      rw [hs] at h
      rw [ih lsm _ _ h, pushDown_length _ ls b hs]

theorem moveObsUp2_length (bs : List Nat) : ∀ (ls : List Layer) (c : Nat)
    {ls2 : List Layer} {c2 : Nat},
    moveObsUp2 ls bs c = some (ls2, c2) → ls2.length = ls.length := by
  induction bs with
  | nil =>
    intro ls c ls2 c2 h
    simp [moveObsUp2] at h
    rw [h.1]
  | cons b rest ih =>
    intro ls c ls2 c2 h
    rw [moveObsUp2] at h
    cases hs : liftUp ls b (b - c) with
    | none => rw [hs] at h; exact absurd h (by simp)
    | some lsm =>
      rw [hs] at h
      rw [ih lsm _ h, liftUp_length _ ls b hs]

theorem deleteAdjacent_length {ls : List Layer} {c k : Nat} {dom cod : Ty}
    {d2 : Diagram} (h : deleteAdjacent ls c k dom cod = some d2) :
    d2.inside.length + 2 = ls.length := by
  rw [deleteAdjacent] at h
  by_cases hg : k = c + 1 ∧ k + 1 ≤ ls.length
  · rw [if_pos hg] at h
    have he : d2.inside = ls.take c ++ ls.drop (k + 1) := by
      cases Option.some.inj h
      rfl
    rw [he]
    simp only [List.length_append, List.length_take, List.length_drop]
    omega
  · rw [if_neg hg] at h
    exact Option.noConfusion h

theorem unsnake_length (d : Diagram) (s : SnakeData) {d2 : Diagram}
    (h : unsnake d s = some d2) : d2.inside.length < d.inside.length := by
  rw [unsnake] at h
  by_cases hls : s.leftSnake
  · rw [if_pos hls] at h
    rcases Option.bind_eq_some.mp h with ⟨⟨ls1, cap1, oR1⟩, h1, h⟩
    rcases Option.bind_eq_some.mp h with ⟨⟨ls2, cup2⟩, h2, h3⟩
    have e1 : ls1.length = d.inside.length := moveObsUp_length _ _ _ _ h1
    have e2 : ls2.length = ls1.length := moveObsDown_length _ _ _ h2
    have e3 : d2.inside.length + 2 = ls2.length := deleteAdjacent_length h3
    omega
  · rw [if_neg hls] at h
    rcases Option.bind_eq_some.mp h with ⟨⟨ls1, cup1, oR1⟩, h1, h⟩
    rcases Option.bind_eq_some.mp h with ⟨⟨ls2, cap2⟩, h2, h3⟩
    have e1 : ls1.length = d.inside.length := moveObsDownAdj_length _ _ _ _ h1
    have e2 : ls2.length = ls1.length := moveObsUp2_length _ _ _ h2
    have e3 : d2.inside.length + 2 = ls2.length := deleteAdjacent_length h3
    omega

/-- A diagram on which the snake-removal loop makes no further
progress: either no snake is found, or the found snake cannot be
removed. -/
def stuck (d : Diagram) : Prop := nfStep d = none

theorem findSnake_nil (d : Diagram) (h : d.inside = []) : findSnake d = none := by
  simp [findSnake, h]

theorem nfStep_nil (d : Diagram) (h : d.inside = []) : nfStep d = none := by
  rw [nfStep, findSnake_nil d h]

theorem nfStep_length {d d2 : Diagram} (h : nfStep d = some d2) :
    d2.inside.length < d.inside.length := by
  rw [nfStep] at h
  cases hf : findSnake d with
  | none => rw [hf] at h; exact Option.noConfusion h
  | some s => rw [hf] at h; exact unsnake_length d s h

theorem nfLoop_stuck (d : Diagram) (hd : stuck d) : ∀ k, nfLoop k d = d := by
  intro k
  cases k with
  | zero => rfl
  | succ m =>
    rw [nfLoop, hd]

theorem nfLoop_fixpoint : ∀ (fuel : Nat) (d : Diagram),
    d.inside.length ≤ fuel → stuck (nfLoop fuel d) := by
  intro fuel
  induction fuel with
  | zero =>
    intro d hd
    have hnil : d.inside = [] := List.eq_nil_of_length_eq_zero (Nat.le_zero.mp hd)
    show stuck d
    exact nfStep_nil d hnil
  | succ m ih =>
    intro d hd
    rw [nfLoop]
    cases hf : nfStep d with
    | none => exact hf
    | some d2 =>
      show stuck (nfLoop m d2)
      exact ih d2 (by have := nfStep_length hf; omega)

/-- C7: the normal form is idempotent: `normal_form(normal_form(d)) ==
normal_form(d)` for every diagram `d`. -/
theorem normal_form_idempotent :
    ∀ d : Diagram, normal_form (normal_form d) = normal_form d := by
  intro d
  exact nfLoop_stuck _ (nfLoop_fixpoint d.inside.length d le_rfl) _

/-- C1: the snake identities: for every atomic type `t`, both
`Id(t.r).transpose(left=True)` and `Id(t.l).transpose(left=False)`
have normal form `Id(t)`. -/
theorem snake_identity_normal_form (o : Ob) :
    normal_form ((idD (Ty.r [o])).transpose true) = idD [o] ∧
    normal_form ((idD (Ty.l [o])).transpose false) = idD [o] := by
  constructor
  · have h : normal_form ((idD (Ty.r [o])).transpose true)
        = idD (Ty.l (Ty.r [o])) := rfl
    rw [h, Ty_r_l]
  · have h : normal_form ((idD (Ty.l [o])).transpose false)
        = idD (Ty.r (Ty.l [o])) := rfl
    rw [h, Ty_l_r]

set_option maxHeartbeats 2000000 in
/-- C6: for atomic types `A`, `B`, the diagram `Id(A @ B).transpose()`
is not structurally equal to `Id(B).transpose() @ Id(A).transpose()`,
but the two diagrams have the same normal form. -/
theorem double_transpose_normal_form (a b : Ob) :
    (idD [a, b]).transpose false ≠
      ((idD [b]).transpose false).tensor ((idD [a]).transpose false) ∧
    normal_form ((idD [a, b]).transpose false) =
      normal_form (((idD [b]).transpose false).tensor ((idD [a]).transpose false)) := by
  constructor
  · intro h
    have h2 := congrArg (fun d => d.inside.map (fun ly => ly.box.dom.length)) h
    have h3 : ((idD [a, b]).transpose false).inside.map
        (fun ly => ly.box.dom.length) = [0, 0, 2, 2] := rfl
    have h4 : (((idD [b]).transpose false).tensor
        ((idD [a]).transpose false)).inside.map
        (fun ly => ly.box.dom.length) = [0, 2, 0, 2] := rfl
    simp only [h3, h4] at h2
    simp at h2
  · rfl

theorem caps_dom_nil (x y : Ty) : (caps x y).dom = [] := by
  cases x with
  | nil => rfl
  | cons a rest =>
    cases rest with
    | nil => rfl
    | cons b rest2 => rfl

/-- C5 (amended): `curry(n, left)` keeps the first (`left = true`) or
last (`left = false`) `n` wires of the domain and converts the
remaining `len(dom) - n` wires into codomain wires via a cap, so the
resulting diagram's domain has length `n`. -/
theorem curry_keeps_n_wires (d : Diagram) (n : Nat) (h : n ≤ d.dom.length) :
    ((d.curry n true).dom = d.dom.take n ∧
      (d.curry n true).dom.length = n ∧
      (d.curry n true).cod = d.cod ++ Ty.l (d.dom.drop n)) ∧
    ((d.curry n false).dom = d.dom.drop (d.dom.length - n) ∧
      (d.curry n false).dom.length = n ∧
      (d.curry n false).cod = Ty.r (d.dom.take (d.dom.length - n)) ++ d.cod) := by
  refine ⟨⟨?_, ?_, ?_⟩, ⟨?_, ?_, ?_⟩⟩
  · simp [Diagram.curry, Diagram.comp, Diagram.tensor, idD, caps_dom_nil]
  · simp [Diagram.curry, Diagram.comp, Diagram.tensor, idD, caps_dom_nil]
    omega
  · simp [Diagram.curry, Diagram.comp, Diagram.tensor, idD]
  · simp [Diagram.curry, Diagram.comp, Diagram.tensor, idD, caps_dom_nil]
  · simp [Diagram.curry, Diagram.comp, Diagram.tensor, idD, caps_dom_nil]
    omega
  · simp [Diagram.curry, Diagram.comp, Diagram.tensor, idD]

/-- Witness for the amended C5 statement at a concrete three-wire box
with `n = 1`. -/
theorem curry_keeps_n_wires_witness :
    1 ≤ (boxD (Box.gen "f" [⟨"a", 0⟩, ⟨"b", 0⟩, ⟨"c", 0⟩] [] 0)).dom.length ∧
    ((boxD (Box.gen "f" [⟨"a", 0⟩, ⟨"b", 0⟩, ⟨"c", 0⟩] [] 0)).curry 1
      true).dom.length = 1 :=
  ⟨by decide,
    (curry_keeps_n_wires (boxD (Box.gen "f" [⟨"a", 0⟩, ⟨"b", 0⟩, ⟨"c", 0⟩] [] 0))
      1 (by decide)).1.2.1⟩

/-- C5 counterexample: the claim as stated says the resulting domain
has length `len(d.dom) - n`; on a box with a three-wire domain and
`n = 1` the resulting domain has length `1`, not `2`, for both flag
values. -/
theorem curry_dom_length_counterexample :
    ¬(((boxD (Box.gen "f" [⟨"a", 0⟩, ⟨"b", 0⟩, ⟨"c", 0⟩] [] 0)).curry 1
        true).dom.length =
      (boxD (Box.gen "f" [⟨"a", 0⟩, ⟨"b", 0⟩, ⟨"c", 0⟩] [] 0)).dom.length - 1) ∧
    ¬(((boxD (Box.gen "f" [⟨"a", 0⟩, ⟨"b", 0⟩, ⟨"c", 0⟩] [] 0)).curry 1
        false).dom.length =
      (boxD (Box.gen "f" [⟨"a", 0⟩, ⟨"b", 0⟩, ⟨"c", 0⟩] [] 0)).dom.length - 1) := by
  constructor <;> decide

/-- Modelled from the spec: the image of an atomic object under a
functor into a target category (rigid.py `Functor.__call__`, lines
624-630; the monoidal base functor, absent from the sample, is the
lookup `ob0` on zero-winding names).  The target category is given by
its optional left and right adjoint operators `lAdj` / `rAdj` on
images, its reversal (Python `[::-1]`) and the object mapping `ob0`.
The fuel is the absolute winding, which decreases at each recursive
call. -/
def obImageAux {τ : Type} (lAdj rAdj : Option (τ → τ)) (rev : τ → τ)
    (ob0 : String → τ) : Nat → Ob → τ
  | 0, x => ob0 x.name
  | n + 1, x =>
    if x.z = 0 then ob0 x.name
    else if x.z < 0 then
      lAdj.elim (rev (ob0 x.name))
        (fun fl => fl (obImageAux lAdj rAdj rev ob0 n (Ob.r x)))
    else
      rAdj.elim (rev (ob0 x.name))
        (fun fr => fr (obImageAux lAdj rAdj rev ob0 n (Ob.l x)))

/-- The functor image of an atomic object: run `obImageAux` with fuel
`|z|` (rigid.py lines 624-630: `self(other.r).l if other.z < 0 else
self(other.l).r`, with the `hasattr` fallback `self(Ob(other.name,
z=0))[::-1]`). -/
def obImage {τ : Type} (lAdj rAdj : Option (τ → τ)) (rev : τ → τ)
    (ob0 : String → τ) (x : Ob) : τ :=
  obImageAux lAdj rAdj rev ob0 x.z.natAbs x

theorem obImageAux_iter_neg {τ : Type} (fl : τ → τ) (rAdj : Option (τ → τ))
    (rev : τ → τ) (ob0 : String → τ) :
    ∀ (n : Nat) (x : Ob), x.z ≤ 0 → x.z.natAbs = n →
      obImageAux (some fl) rAdj rev ob0 n x = fl^[n] (ob0 x.name) := by
  intro n
  induction n with
  | zero =>
    intro x h1 h2
    simp [obImageAux]
  | succ m ih =>
    intro x h1 h2
    rw [obImageAux, if_neg (by omega), if_pos (by omega)]
    simp only [Option.elim]
    rw [ih (Ob.r x) (by simp [Ob.r]; omega) (by simp [Ob.r]; omega)]
    rw [Function.iterate_succ_apply']
    rfl

theorem obImageAux_iter_pos {τ : Type} (lAdj : Option (τ → τ)) (fr : τ → τ)
    (rev : τ → τ) (ob0 : String → τ) :
    ∀ (n : Nat) (x : Ob), 0 ≤ x.z → x.z.natAbs = n →
      obImageAux lAdj (some fr) rev ob0 n x = fr^[n] (ob0 x.name) := by
  intro n
  induction n with
  | zero =>
    intro x h1 h2
    simp [obImageAux]
  | succ m ih =>
    intro x h1 h2
    rw [obImageAux, if_neg (by omega), if_neg (by omega)]
    simp only [Option.elim]
    rw [ih (Ob.l x) (by simp [Ob.l]; omega) (by simp [Ob.l]; omega)]
    rw [Function.iterate_succ_apply']
    rfl

theorem obImage_neg_none {τ : Type} (rAdj : Option (τ → τ)) (rev : τ → τ)
    (ob0 : String → τ) (x : Ob) (h : x.z < 0) :
    obImage none rAdj rev ob0 x = rev (ob0 x.name) := by
  have hn : x.z.natAbs = (x.z.natAbs - 1) + 1 := by omega
  rw [obImage, hn, obImageAux, if_neg (by omega), if_pos h]
  rfl

theorem obImage_pos_none {τ : Type} (lAdj : Option (τ → τ)) (rev : τ → τ)
    (ob0 : String → τ) (x : Ob) (h : 0 < x.z) :
    obImage lAdj none rev ob0 x = rev (ob0 x.name) := by
  have hn : x.z.natAbs = (x.z.natAbs - 1) + 1 := by omega
  rw [obImage, hn, obImageAux, if_neg (by omega), if_neg (by omega)]
  rfl

/-- C8: the image of an atomic object with nonzero winding `z` under a
functor: when the target category exposes the adjoint operator in the
direction of the sign of `z`, the image applies it `|z|` times to the
image of the zero-winding object; when the target exposes no such
operator, the image is the reversed image of the zero-winding object,
and no error is raised (the mapping is total). -/
theorem functor_winding_adjoint :
    ∀ (τ : Type) (lAdj rAdj : Option (τ → τ)) (rev : τ → τ)
      (ob0 : String → τ) (x : Ob), x.z ≠ 0 →
      ((x.z < 0 →
        (lAdj = none → obImage lAdj rAdj rev ob0 x = rev (ob0 x.name)) ∧
        (∀ fl, lAdj = some fl →
          obImage lAdj rAdj rev ob0 x = fl^[x.z.natAbs] (ob0 x.name))) ∧
       (0 < x.z →
        (rAdj = none → obImage lAdj rAdj rev ob0 x = rev (ob0 x.name)) ∧
        (∀ fr, rAdj = some fr →
          obImage lAdj rAdj rev ob0 x = fr^[x.z.natAbs] (ob0 x.name)))) := by
  intro τ lAdj rAdj rev ob0 x hz
  constructor
  · intro hneg
    constructor
    · intro hl
      rw [hl]
      exact obImage_neg_none rAdj rev ob0 x hneg
    · intro fl hl
      rw [hl, obImage]
      exact obImageAux_iter_neg fl rAdj rev ob0 x.z.natAbs x (by omega) rfl
  · intro hpos
    constructor
    · intro hr
      rw [hr]
      exact obImage_pos_none lAdj rev ob0 x hpos
    · intro fr hr
      rw [hr, obImage]
      exact obImageAux_iter_pos lAdj fr rev ob0 x.z.natAbs x (by omega) rfl

/-- Witness for C8: with the target `Nat`, successor as left adjoint
and winding `-2`, the image is the double successor of the base image. -/
theorem functor_winding_adjoint_witness :
    (⟨"a", -2⟩ : Ob).z ≠ 0 ∧
    obImage (τ := Nat) (some Nat.succ) none id (fun _ => 0) ⟨"a", -2⟩ = 2 := by
  refine ⟨by decide, ?_⟩
  have h := ((functor_winding_adjoint Nat (some Nat.succ) none id (fun _ => 0)
      ⟨"a", -2⟩ (by decide)).1 (by decide)).2 Nat.succ rfl
  rw [h]
  rfl

/-- Modelled from the spec: Python list-slice semantics `l[a:b]` with
step one: negative indices count from the end, and both bounds are
clamped to the list. -/
def pySlice (l : Ty) (a b : Int) : Ty :=
  let aN := (if a < 0 then max (a + l.length) 0 else min a l.length).toNat
  let bN := (if b < 0 then max (b + l.length) 0 else min b l.length).toNat
  (l.drop aN).take (bN - aN)

/-- Explicit cup insertion at wire indices `x`, `y` (rigid.py
`Diagram.cup`, lines 370-379).  When `min(x, y) < 0` or
`max(x, y) >= len(cod)` Python raises `ValueError('Indices ... are out
of range.')`, the spec's IndexOutOfRange, modelled as `indexError`.
The indices are then sorted; when they are not adjacent the loop body
references the undefined name `Swap` (a `NameError`, modelled as
`nameError`); otherwise the atomic cup is built on the two codomain
wires and composed below the diagram. -/
def Diagram.cup (d : Diagram) (x y : Int) : Except PyError Diagram :=
  if min x y < 0 ∨ (d.cod.length : Int) ≤ max x y then .error .indexError
  else if min x y < max x y - 1 then .error .nameError
  else
    match mkCup (pySlice d.cod (max x y - 1) (max x y))
        (pySlice d.cod (max x y) (max x y + 1)) with
    | .error e => .error e
    | .ok c =>
      .ok (d.comp (((idD (pySlice d.cod 0 (max x y - 1))).tensor
        (boxD c)).tensor (idD (pySlice d.cod (max x y + 1) (d.cod.length : Int)))))

theorem mkCup_ne_indexError (l r : Ty) : mkCup l r ≠ .error .indexError := by
  rw [mkCup]
  by_cases h1 : l.length ≠ 1 ∨ r.length ≠ 1
  · rw [if_pos h1]
    intro h
    exact PyError.noConfusion (Except.error.inj h)
  · rw [if_neg h1]
    by_cases h2 : Ty.r l ≠ r ∧ l ≠ Ty.r r
    · rw [if_pos h2]
      intro h
      exact PyError.noConfusion (Except.error.inj h)
    · rw [if_neg h2]
      intro h
      exact Except.noConfusion h

/-- C9 (amended): explicit cup insertion `d.cup(x, y)` fails with the
index-out-of-range error exactly when one of the indices is outside
the codomain (`x` or `y` negative, or at least `len(d.cod)`); indices
given in reversed order are sorted with `min`/`max` and are not an
error. -/
theorem cup_index_error_iff (d : Diagram) (x y : Int) :
    d.cup x y = .error .indexError ↔
      (min x y < 0 ∨ (d.cod.length : Int) ≤ max x y) := by
  constructor
  · intro h
    by_contra hc
    rw [Diagram.cup, if_neg hc] at h
    by_cases h2 : min x y < max x y - 1
    · rw [if_pos h2] at h
      exact PyError.noConfusion (Except.error.inj h)
    · rw [if_neg h2] at h
      cases hm : mkCup (pySlice d.cod (max x y - 1) (max x y))
          (pySlice d.cod (max x y) (max x y + 1)) with
      | error e =>
        rw [hm] at h
        have he : e = .indexError := Except.error.inj h
        exact mkCup_ne_indexError _ _ (he ▸ hm)
      | ok c =>
        rw [hm] at h
        exact Except.noConfusion h
  · intro h
    rw [Diagram.cup, if_pos h]

/-- C9 counterexample: the indices `(1, 0)` are in reversed order, yet
on the identity of `a @ a.r` the cup insertion succeeds instead of
failing. -/
theorem cup_reversed_order_ok :
    ∃ v, (idD [⟨"a", 0⟩, ⟨"a", 1⟩]).cup 1 0 = Except.ok v :=
  ⟨_, rfl⟩

end Rigid
